import Mathlib

/-!
Verification development for the AstriaGraph data-conversion pipeline
(`scripts/convert_intact_to_tsv.mjs` and `scripts/fetch_celestrak.mjs`).

Modelling conventions, used throughout:

* JavaScript numbers are idealised as exact rationals (`ℚ`); `NaN` and the
  infinities are represented by `Option.none` wherever the scripts test
  `Number.isFinite`.  All rational values produced by the embedding are built
  with `mkRat` from integer arithmetic so that every definition evaluates
  inside the kernel.
* JavaScript strings are modelled by `String`; the handful of string
  primitives the scripts use (`trim`, `split`, `indexOf`, `includes`,
  `toUpperCase`) are re-implemented structurally on `List Char`.
* A JavaScript object produced by the TSV loader, and likewise a JavaScript
  `Map`, is an insertion-ordered association list; `set`/property assignment
  replaces the value of an existing key in place and appends a fresh key at
  the end, exactly as specified for JS `Map` and plain objects.
* `Date.parse` is modelled for ISO-8601 date / date-time strings (the only
  epoch format the data uses); the result is an integer that is strictly
  monotone in the represented instant, which is all the scripts ever use
  (they only compare parse results).  Strings outside that format parse to
  `none`, matching `NaN` from `Date.parse`.
* `Number(string)` is modelled for decimal literals, optional sign, optional
  fraction and exponent, and the `Infinity` forms; hexadecimal, octal and
  binary literals (which never occur in this data) are outside the modelled
  input set and parse to `none`.
-/

/-! ### Character-list string primitives -/

def listToStr (cs : List Char) : String := String.mk cs

def jsWhitespace (c : Char) : Bool := c.isWhitespace

def trimChars (cs : List Char) : List Char :=
  ((cs.dropWhile jsWhitespace).reverse.dropWhile jsWhitespace).reverse

/-- Model of `String.prototype.trim`. -/
def jsTrim (s : String) : String := listToStr (trimChars s.toList)

/-- Model of `String.prototype.toUpperCase` (ASCII range, which covers the data). -/
def strToUpper (s : String) : String := listToStr (s.toList.map Char.toUpper)

def isPrefixList : List Char → List Char → Bool
  | [], _ => true
  | _ :: _, [] => false
  | a :: as, b :: bs => a == b && isPrefixList as bs

/-- Split at the first occurrence of `sep`: returns the part before it and the
part after it, or `none` when `sep` does not occur (models `indexOf`). -/
def splitAtSub (sep : List Char) : List Char → Option (List Char × List Char)
  | [] => if sep.isEmpty then some ([], []) else none
  | c :: cs =>
    if isPrefixList sep (c :: cs) then some ([], (c :: cs).drop sep.length)
    else (splitAtSub sep cs).map (fun p => (c :: p.1, p.2))

/-- Model of `String.prototype.includes`. -/
def jsIncludes (s : String) (sub : String) : Bool :=
  (splitAtSub sub.toList s.toList).isSome

/-- Model of `split` on a single separator character. -/
def splitOnChar (sep : Char) : List Char → List (List Char)
  | [] => [[]]
  | c :: cs =>
    if c == sep then [] :: splitOnChar sep cs
    else
      match splitOnChar sep cs with
      | [] => [[c]]
      | g :: gs => (c :: g) :: gs

/-- Model of `split(/\r?\n/)`: a line break is `"\r\n"` or `"\n"`; a lone
carriage return stays inside its piece, as with the regular expression. -/
def splitLinesChars : List Char → List (List Char)
  | [] => [[]]
  | '\r' :: '\n' :: cs => [] :: splitLinesChars cs
  | '\n' :: cs => [] :: splitLinesChars cs
  | c :: cs =>
    match splitLinesChars cs with
    | [] => [[c]]
    | g :: gs => (c :: g) :: gs

/-- Line split followed by `filter(Boolean)`, as in `parseTSV`. -/
def jsLines (s : String) : List String :=
  ((splitLinesChars s.toList).map listToStr).filter (fun l => l ≠ "")

def splitTab (s : String) : List String :=
  (splitOnChar '\t' s.toList).map listToStr

def joinSep (sep : String) : List String → String
  | [] => ""
  | [x] => x
  | x :: xs => x ++ sep ++ joinSep sep xs

def joinTab (l : List String) : String := joinSep ("\t") l

/-! ### Model of JavaScript `Number(string)` -/

def digitsVal (cs : List Char) : ℕ :=
  cs.foldl (fun a c => a * 10 + (c.toNat - 48)) 0

/-- Parse the optional exponent suffix of a decimal literal.  An empty rest is
exponent `0`; anything that is not a well-formed exponent makes the whole
literal unparsable. -/
def parseExp : List Char → Option ℤ
  | [] => some 0
  | c :: rest =>
    if c == 'e' || c == 'E' then
      match rest with
      | '+' :: ds => if ds ≠ [] ∧ ds.all Char.isDigit then some (digitsVal ds) else none
      | '-' :: ds => if ds ≠ [] ∧ ds.all Char.isDigit then some (-(digitsVal ds : ℤ)) else none
      | ds => if ds ≠ [] ∧ ds.all Char.isDigit then some (digitsVal ds) else none
    else none

/-- The exact rational value of the decimal literal with integer-part value
`ip`, fraction digits worth `fp` over `fl` digits, and exponent `e`. -/
def decValue (ip fp fl : ℕ) (e : ℤ) : ℚ :=
  if 0 ≤ e then mkRat (((ip * 10 ^ fl + fp : ℕ) : ℤ) * 10 ^ e.toNat) (10 ^ fl)
  else mkRat ((ip * 10 ^ fl + fp : ℕ) : ℤ) (10 ^ (fl + (-e).toNat))

/-- Parse an unsigned decimal literal: digits, optional `.` and fraction
digits (at least one digit overall), optional exponent. -/
def parseDecCore (cs : List Char) : Option ℚ :=
  match cs.dropWhile Char.isDigit with
  | '.' :: rest2 =>
    if cs.takeWhile Char.isDigit = [] ∧ rest2.takeWhile Char.isDigit = [] then none
    else
      (parseExp (rest2.dropWhile Char.isDigit)).map (fun e =>
        decValue (digitsVal (cs.takeWhile Char.isDigit))
          (digitsVal (rest2.takeWhile Char.isDigit))
          (rest2.takeWhile Char.isDigit).length e)
  | rest1 =>
    if cs.takeWhile Char.isDigit = [] then none
    else (parseExp rest1).map (fun e => decValue (digitsVal (cs.takeWhile Char.isDigit)) 0 0 e)

/-- Model of `Number(string)` restricted to finite results: `some q` when the
conversion yields the finite number `q`, `none` when it yields `NaN` or an
infinity (so `Number.isFinite` is `Option.isSome`).  The whitespace-only
string converts to `0`, as in JavaScript. -/
def jsNumber? (s : String) : Option ℚ :=
  if jsTrim s = "" then some 0
  else if jsTrim s = "Infinity" ∨ jsTrim s = "+Infinity" ∨ jsTrim s = "-Infinity" then none
  else
    match (jsTrim s).toList with
    | '+' :: rest => parseDecCore rest
    | '-' :: rest => (parseDecCore rest).map (fun q => -q)
    | cs => parseDecCore cs

/-! ### Model of `Date.parse` on ISO-8601 strings -/

def expectChar (c : Char) : List Char → Option (List Char)
  | [] => none
  | x :: xs => if x == c then some xs else none

def parseDigitsAux : ℕ → ℕ → List Char → Option (ℕ × List Char)
  | acc, 0, cs => some (acc, cs)
  | _, _ + 1, [] => none
  | acc, k + 1, c :: cs =>
    if c.isDigit then parseDigitsAux (acc * 10 + (c.toNat - 48)) k cs else none

def msFromFrac (ds : List Char) : ℕ := digitsVal ds * 10 ^ (3 - ds.length)

/-- Order-faithful integer encoding of a calendar instant: strictly monotone
in (year, month, day, hour, minute, second, millisecond), which is the only
property of `Date.parse` results the scripts use (they compare them). -/
def encodeInstant (y mo d h mi s ms : ℕ) : ℤ :=
  (((((((y * 12 + (mo - 1)) * 31 + (d - 1)) * 24 + h) * 60 + mi) * 60 + s) * 1000 + ms : ℕ) : ℤ)

def dateFinish (y mo d h mi s ms : ℕ) (rest : List Char) : Option ℤ :=
  if h ≤ 23 ∧ mi ≤ 59 ∧ s ≤ 59 then
    match rest with
    | [] => some (encodeInstant y mo d h mi s ms)
    | ['Z'] => some (encodeInstant y mo d h mi s ms)
    | _ => none
  else none

def dateParseTime (y mo d : ℕ) (cs : List Char) : Option ℤ :=
  match parseDigitsAux 0 2 cs with
  | none => none
  | some (h, r1) =>
    match expectChar ':' r1 with
    | none => none
    | some r2 =>
      match parseDigitsAux 0 2 r2 with
      | none => none
      | some (mi, r3) =>
        match r3 with
        | ':' :: r4 =>
          (match parseDigitsAux 0 2 r4 with
           | none => none
           | some (s, r5) =>
             match r5 with
             | '.' :: r6 =>
               if 1 ≤ (r6.takeWhile Char.isDigit).length ∧ (r6.takeWhile Char.isDigit).length ≤ 3 then
                 dateFinish y mo d h mi s (msFromFrac (r6.takeWhile Char.isDigit))
                   (r6.dropWhile Char.isDigit)
               else none
             | _ => dateFinish y mo d h mi s 0 r5)
        | _ => dateFinish y mo d h mi 0 0 r3

/-- Model of `Date.parse` restricted to ISO-8601 `YYYY-MM-DD`, optionally
followed by `THH:MM`, `:SS`, a 1-3 digit fraction and a trailing `Z`;
all instants are read in a single fixed timezone.  Anything else parses to
`none`, the model of `NaN`. -/
def dateParse? (str : String) : Option ℤ :=
  match parseDigitsAux 0 4 str.toList with
  | none => none
  | some (y, r1) =>
    match expectChar '-' r1 with
    | none => none
    | some r2 =>
      match parseDigitsAux 0 2 r2 with
      | none => none
      | some (mo, r3) =>
        match expectChar '-' r3 with
        | none => none
        | some r4 =>
          match parseDigitsAux 0 2 r4 with
          | none => none
          | some (d, r5) =>
            if 1 ≤ mo ∧ mo ≤ 12 ∧ 1 ≤ d ∧ d ≤ 31 then
              match r5 with
              | [] => some (encodeInstant y mo d 0 0 0 0)
              | 'T' :: r6 => dateParseTime y mo d r6
              | _ => none
            else none

/-! ### Rows and insertion-ordered maps -/

/-- A loaded TSV row: a JavaScript object with string field values, modelled
as an insertion-ordered association list. -/
abbrev Row := List (String × String)

/-- Lookup in a JS `Map` / object (keys are unique by construction). -/
def jsMapGet {α : Type} : List (String × α) → String → Option α
  | [], _ => none
  | (k0, v0) :: rest, k => if k0 = k then some v0 else jsMapGet rest k

/-- Model of `Map.prototype.set` and of JS property assignment: replace the
value of an existing key in place, append a fresh key at the end. -/
def jsMapSet {α : Type} : List (String × α) → String → α → List (String × α)
  | [], k, v => [(k, v)]
  | (k0, v0) :: rest, k, v =>
    if k0 = k then (k0, v) :: rest else (k0, v0) :: jsMapSet rest k v

/-- Model of `row[k] ?? ''`. -/
def jsGetD (r : Row) (k : String) : String := (jsMapGet r k).getD ("")

/-- Model of `String(row[k])`: an absent property is `undefined`, which
`String` renders as `"undefined"`. -/
def jsGetStr (r : Row) (k : String) : String := (jsMapGet r k).getD ("undefined")

/-- Model of `Number(row[k])`: an absent property gives `NaN`. -/
def numField (r : Row) (k : String) : Option ℚ :=
  match jsMapGet r k with
  | none => none
  | some s => jsNumber? s

/-! ### `parseTSV` (the source catalog loader) -/

/-- Build the row object `rec` from header tokens and column tokens
(`rec[header[j]] = cols[j]`, later duplicate header names overwrite). -/
def buildRec (header cols : List String) : Row :=
  (header.zip cols).foldl (fun m p => jsMapSet m p.1 p.2) []

def parseRows (header : List String) : List String → List Row
  | [] => []
  | l :: ls =>
    if (splitTab l).length < header.length then parseRows header ls
    else buildRec header (splitTab l) :: parseRows header ls

structure TSVTable where
  header : List String
  rows : List Row
deriving DecidableEq

/-- Model of `parseTSV`: `none` when there is no header line at all (the
script would throw in that case). -/
def parseTSV (tsv : String) : Option TSVTable :=
  match jsLines tsv with
  | [] => none
  | l0 :: rest => some ⟨splitTab l0, parseRows (splitTab l0) rest⟩

/-- Model of `extractBacktick`: the text between `var <name> = \x60` and the
next backtick, trimmed; `none` when either marker is missing. -/
def extractBacktick (name : String) (text : String) : Option String :=
  match splitAtSub (("var " ++ name ++ " = `").toList) text.toList with
  | none => none
  | some (_, rest) =>
    match splitAtSub (("`").toList) rest with
    | none => none
    | some (content, _) => some (jsTrim (listToStr content))

/-! ### The reconciliation engine of `convert_intact_to_tsv.mjs` -/

def mapOrbitType (ch : String) : String :=
  match strToUpper (jsTrim ch) with
  | "L" => "LEO"
  | "M" => "MEO"
  | "G" => "GEO"
  | "H" => "HEO"
  | _ => ""

/-- The hard-coded source priority list of the script. -/
def priority : List String := [("0"), ("4"), ("3"), ("1"), ("7")]

def jsIndexOfAux : List String → String → ℤ → ℤ
  | [], _, _ => -1
  | x :: xs, t, i => if x = t then i else jsIndexOfAux xs t (i + 1)

/-- Model of `Array.prototype.indexOf` (first index, `-1` when absent). -/
def jsIndexOf (l : List String) (t : String) : ℤ := jsIndexOfAux l t 0

/-- The `(p !== -1 ? p : 999)` adjustment applied before comparing priorities. -/
def adjPri (p : ℤ) : ℤ := if p ≠ -1 then p else 999

/-- Priority index of a record: `priority.indexOf(String(r['DataSourceId']).trim())`. -/
def rawPri (r : Row) : ℤ := jsIndexOf priority (jsTrim (jsGetStr r ("DataSourceId")))

/-- Model of `hasValidElems`. -/
def hasValidElems (row : Row) : Bool :=
  (match numField row ("SMA") with
   | some q => decide (0 < q)
   | none => false)
  && (numField row ("Inc")).isSome && (numField row ("Ecc")).isSome
  && (numField row ("RAAN")).isSome && (numField row ("ArgP")).isSome
  && (numField row ("MeanAnom")).isSome
  && decide (jsTrim (jsGetD row ("Epoch")) ≠ "")

/-- Model of `epochToDate`: `none` stands for the `-Infinity` the script uses
for an unparsable epoch. -/
def epochToDate (row : Row) : Option ℤ :=
  dateParse? (jsTrim (jsGetD row ("Epoch")))

/-- Strict `>` on `ℝ ∪ \x7b-∞\x7d` as the script computes it (`none` is `-Infinity`). -/
def edGT : Option ℤ → Option ℤ → Bool
  | some a, some b => decide (b < a)
  | some _, none => true
  | none, _ => false

/-- Model of `better(a, b)`: is record `a` better than the current champion
`b` (`none` when there is no champion yet)? -/
def better (a : Row) (b : Option Row) : Bool :=
  match b with
  | none => true
  | some brec =>
    if rawPri a ≠ rawPri brec then decide (adjPri (rawPri a) < adjPri (rawPri brec))
    else edGT (epochToDate a) (epochToDate brec)

/-- One iteration of the reconciliation loop over `rso.rows`. -/
def reconStep (m : List (String × Row)) (row : Row) : List (String × Row) :=
  if hasValidElems row = true then
    if jsTrim (jsGetD row ("NoradId")) = "" then m
    else if better row (jsMapGet m (jsTrim (jsGetD row ("NoradId")))) = true then
      jsMapSet m (jsTrim (jsGetD row ("NoradId"))) row
    else m
  else m

/-- The reconciliation reduction: fold the loop over all loaded rows,
starting from an empty `Map`. -/
def reconcile (rows : List Row) : List (String × Row) :=
  rows.foldl reconStep []

/-- The name a descriptor row contributes: its trimmed `Name`, after the
historical rename to `USSTRATCOM` for id `"0"` with a `USSPACE` name. -/
def normName (r : Row) : String :=
  if jsTrim (jsGetD r ("DataSourceId")) = "0" ∧
     jsIncludes (strToUpper (jsTrim (jsGetD r ("Name")))) ("USSPACE") = true
  then ("USSTRATCOM") else jsTrim (jsGetD r ("Name"))

/-- One iteration of the `idToName` loop: skip rows whose id trims to the
empty string, otherwise `idToName.set(id, name)`. -/
def dsStep (m : List (String × String)) (row : Row) : List (String × String) :=
  if jsTrim (jsGetD row ("DataSourceId")) ≠ "" then
    jsMapSet m (jsTrim (jsGetD row ("DataSourceId"))) (normName row)
  else m

/-- Model of the `idToName` construction over the data-source descriptor rows,
including the `USSPACE` → `USSTRATCOM` rename for id `"0"`. -/
def buildIdToName (rows : List Row) : List (String × String) :=
  rows.foldl dsStep []

def headerOutCols : List String :=
  [("DataSource"), ("Name"), ("Country"), ("CatalogId"), ("NoradId"), ("BirthDate"),
   ("Operator"), ("Users"), ("Purpose"), ("DetailedPurpose"), ("LaunchMass"), ("DryMass"),
   ("Power"), ("Lifetime"), ("Contractor"), ("LaunchSite"), ("LaunchVehicle"), ("OrbitType"),
   ("Epoch"), ("SMA"), ("Ecc"), ("Inc"), ("RAAN"), ("ArgP"), ("MeanAnom")]

def headerOut : String := joinTab headerOutCols

/-- The 25 output columns built from a winning record (`cols` in the script). -/
def outCells (row : Row) : List String :=
  [jsTrim (jsGetD row ("DataSourceId")), jsGetD row ("Name"), jsGetD row ("Country"),
   jsGetD row ("CatalogId"), jsGetD row ("NoradId"), jsGetD row ("BirthDate"),
   jsGetD row ("Operator"), jsGetD row ("Users"), jsGetD row ("Purpose"),
   jsGetD row ("DetailedPurpose"), jsGetD row ("LaunchMass"), jsGetD row ("DryMass"),
   jsGetD row ("Power"), jsGetD row ("Lifetime"), jsGetD row ("Contractor"),
   jsGetD row ("LaunchSite"), jsGetD row ("LaunchVehicle"),
   mapOrbitType (jsGetD row ("OrbitType")), jsGetD row ("Epoch"), jsGetD row ("SMA"),
   jsGetD row ("Ecc"), jsGetD row ("Inc"), jsGetD row ("RAAN"), jsGetD row ("ArgP"),
   jsGetD row ("MeanAnom")]

def outRow (row : Row) : String := joinTab (outCells row)

/-- Lines of `www_data_sources.tsv`. -/
def dsTableLines (m : List (String × String)) : List String :=
  ("Code\tName") :: m.map (fun p => p.1 ++ "\t" ++ p.2)

/-- Lines of `www_query_NODEB.tsv`: the fixed header followed by one emitted
row per reconciled object, in map iteration order. -/
def nodebLines (rows : List Row) : List String :=
  headerOut :: (reconcile rows).map (fun p => outRow p.2)

/-- The whole conversion pipeline of `convert_intact_to_tsv.mjs`, from the
`intactData.js` source text to the two emitted tables. -/
def convertPipeline (js : String) : Option (String × String) :=
  match extractBacktick ("dataSources") js, extractBacktick ("intactRso") js with
  | some dsTsv, some rsoTsv =>
    (match parseTSV dsTsv, parseTSV rsoTsv with
     | some ds, some rso =>
       some (joinSep ("\n") (dsTableLines (buildIdToName ds.rows)),
             joinSep ("\n") (nodebLines rso.rows))
     | _, _ => none)
  | _, _ => none

def rowsOf (s : String) : List Row :=
  match parseTSV s with
  | some t => t.rows
  | none => []

/-! ### `fetch_celestrak.mjs`: unit conversion and row serialization -/

/-- The exact rational value of the IEEE-754 double `Math.PI`. -/
def piQ : ℚ := mkRat 884279719003555 281474976710656

/-- Model of `deg2rad`: `(Number(d) || 0) * Math.PI / 180`, computed exactly
on rationals (`NaN` degrades to `0` through `|| 0`). -/
def deg2radQ (d : String) : ℚ :=
  mkRat (((jsNumber? d).getD 0).num * 884279719003555)
    ((((jsNumber? d).getD 0).den * 281474976710656) * 180)

/-- A value placed into a CelesTrak output cell: a string, or a finite number. -/
inductive JSVal where
  | str : String → JSVal
  | num : ℚ → JSVal
deriving DecidableEq

/-- Model of `toNum`: `Number(x)` when finite, else the empty string. -/
def toNumVal (x : String) : JSVal :=
  match jsNumber? x with
  | some n => JSVal.num n
  | none => JSVal.str ("")

/-- The guard of `smaFromMeanMotionRevPerDay`: is the mean motion a finite
number strictly greater than zero? -/
def smaGuard (nRevPerDay : String) : Bool :=
  match jsNumber? nRevPerDay with
  | some n => decide (0 < n)
  | none => false

/-- Earth gravitational parameter constant of the script, in m^3/s^2. -/
noncomputable def MU_EARTH : ℝ := 3.986004418e14

/-- Model of `smaFromMeanMotionRevPerDay`: `none` is the empty string the
script returns for a non-finite or non-positive mean motion; otherwise the
cube root of mu over the squared angular rate.  The floating-point arithmetic
is idealised over the reals (cube root of a positive real as `rpow (1/3)`). -/
noncomputable def smaFromMeanMotionRevPerDay (nRevPerDay : String) : Option ℝ :=
  match jsNumber? nRevPerDay with
  | none => none
  | some n =>
    if n ≤ 0 then none
    else some ((MU_EARTH / (((n : ℝ) * 2 * Real.pi / 86400) ^ 2)) ^ ((1 : ℝ) / 3))

/-! ### Model of ECMAScript `Number::toString` (radix 10)

JavaScript doubles are always decimal-finite rationals; the model below
implements the ECMAScript radix-10 `ToString` algorithm for such rationals:
shortest digits `s` with `q = s * 10 ^ (n - k)`, plain decimal notation for
`-6 < n ≤ 21` and exponential notation outside that window. -/

def digitChar (d : ℕ) : Char :=
  match d with
  | 0 => '0'
  | 1 => '1'
  | 2 => '2'
  | 3 => '3'
  | 4 => '4'
  | 5 => '5'
  | 6 => '6'
  | 7 => '7'
  | 8 => '8'
  | 9 => '9'
  | _ + 10 => '0'

def natDigitsAux : ℕ → ℕ → List ℕ
  | 0, _ => []
  | _ + 1, 0 => []
  | f + 1, n + 1 => (n + 1) % 10 :: natDigitsAux f ((n + 1) / 10)

/-- Little-endian decimal digits of a natural number (`[]` for `0`). -/
def natDigits (n : ℕ) : List ℕ := natDigitsAux n n

def maxPowAux : ℕ → ℕ → ℕ → ℕ
  | 0, _, _ => 0
  | f + 1, p, n => if 2 ≤ p ∧ 0 < n ∧ n % p = 0 then maxPowAux f p (n / p) + 1 else 0

/-- Largest `e` with `p ^ e` dividing `n` (for `p ≥ 2`, `n > 0`). -/
def maxPow (p n : ℕ) : ℕ := maxPowAux n p n

/-- The decimal scale of a rational: the least `m` with `q * 10 ^ m` integral
when the denominator is of the form `2 ^ a * 5 ^ b`. -/
def ratScale (q : ℚ) : ℕ := max (maxPow 2 q.den) (maxPow 5 q.den)

/-- A rational has a finite decimal expansion (true of every IEEE-754 double,
whose denominator is a power of two). -/
abbrev FiniteDec (q : ℚ) : Prop := q.den ∣ 10 ^ ratScale q

/-- All decimal digits of `|q| * 10 ^ ratScale q`, little-endian. -/
def ratSigAll (p : ℚ) : List ℕ :=
  natDigits (p.num.toNat * (10 ^ ratScale p / p.den))

/-- The shortest significant digits of `p`, big-endian (trailing zeros of the
scaled integer stripped). -/
def ratSig (p : ℚ) : List ℕ :=
  ((ratSigAll p).drop ((ratSigAll p).takeWhile (fun d => d == 0)).length).reverse

/-- The `n` of the ECMAScript algorithm: `p = s * 10 ^ (n - k)` with `k`
significant digits `s`. -/
def ratExp10 (p : ℚ) : ℤ :=
  ((ratSigAll p).length : ℤ) - (ratScale p : ℤ)

def expChars (n : ℤ) : List Char :=
  if 0 ≤ n - 1 then 'e' :: '+' :: ((natDigits (n - 1).toNat).reverse.map digitChar)
  else 'e' :: '-' :: ((natDigits (1 - n).toNat).reverse.map digitChar)

/-- The five output shapes of the ECMAScript radix-10 `ToString` algorithm,
from big-endian significant digits `sig` (`k = sig.length`) and exponent `n`. -/
def formatDigits (sig : List ℕ) (k : ℕ) (n : ℤ) : String :=
  if (k : ℤ) ≤ n ∧ n ≤ 21 then
    listToStr (sig.map digitChar ++ List.replicate (n - k).toNat '0')
  else if 0 < n ∧ n ≤ 21 then
    listToStr ((sig.map digitChar).take n.toNat ++ '.' :: (sig.map digitChar).drop n.toNat)
  else if -6 < n ∧ n ≤ 0 then
    listToStr ('0' :: '.' :: (List.replicate (-n).toNat '0' ++ sig.map digitChar))
  else if k = 1 then
    listToStr (sig.map digitChar ++ expChars n)
  else
    listToStr ((sig.map digitChar).take 1 ++ '.' :: ((sig.map digitChar).drop 1 ++ expChars n))

def jsNumberToStringPos (p : ℚ) : String :=
  formatDigits (ratSig p) (ratSig p).length (ratExp10 p)

/-- Model of `String(v)` on a finite JavaScript number (idealised as an exact
decimal-finite rational). -/
def jsNumberToString (q : ℚ) : String :=
  if q.num = 0 then ("0")
  else if q.num < 0 then ("-") ++ jsNumberToStringPos (-q)
  else jsNumberToStringPos q

/-- The cell serialization step of `rowFromCelestrak`:
`(typeof v === 'number' && Number.isFinite(v)) ? String(v) : (v ?? '')`. -/
def serializeCell : JSVal → String
  | JSVal.str s => s
  | JSVal.num q => jsNumberToString q

/-- A CelesTrak GP record (the JSON scalars are modelled by their source
text; `Number` applied to them is the decimal parse). -/
structure GPObj where
  OBJECT_NAME : String
  OBJECT_ID : String
  EPOCH : String
  MEAN_MOTION : String
  ECCENTRICITY : String
  INCLINATION : String
  RA_OF_ASC_NODE : String
  ARG_OF_PERICENTER : String
  MEAN_ANOMALY : String
  NORAD_CAT_ID : String

/-- The 25 cell values of `rowFromCelestrak`.  The semi-major axis is a cube
root, irrational in general, so the double actually produced is supplied as
the rational parameter `smaVal`; the guard deciding between a number cell and
the empty-string cell is the script's own. -/
def rowFromCelestrakCells (obj : GPObj) (smaVal : ℚ) : List JSVal :=
  [JSVal.str ("USSTRATCOM"), JSVal.str obj.OBJECT_NAME, JSVal.str (""),
   JSVal.str obj.OBJECT_ID, JSVal.str obj.NORAD_CAT_ID,
   JSVal.str (""), JSVal.str (""), JSVal.str (""), JSVal.str (""), JSVal.str (""),
   JSVal.str (""), JSVal.str (""), JSVal.str (""), JSVal.str (""), JSVal.str (""),
   JSVal.str (""), JSVal.str (""),
   JSVal.str (""),
   JSVal.str obj.EPOCH,
   (if smaGuard obj.MEAN_MOTION = true then JSVal.num smaVal else JSVal.str ("")),
   toNumVal obj.ECCENTRICITY,
   JSVal.num (deg2radQ obj.INCLINATION),
   JSVal.num (deg2radQ obj.RA_OF_ASC_NODE),
   JSVal.num (deg2radQ obj.ARG_OF_PERICENTER),
   JSVal.num (deg2radQ obj.MEAN_ANOMALY)]

def rowFromCelestrak (obj : GPObj) (smaVal : ℚ) : String :=
  joinTab ((rowFromCelestrakCells obj smaVal).map serializeCell)

/-! ### Claim-side comparison predicates -/

/-- The validity predicate exactly as the specification words it, with the
epoch clause read on the trimmed epoch (the amended reading). -/
def ValidSpec (row : Row) : Prop :=
  (∃ q, numField row ("SMA") = some q ∧ 0 < q) ∧
  (numField row ("Inc")).isSome = true ∧ (numField row ("Ecc")).isSome = true ∧
  (numField row ("RAAN")).isSome = true ∧ (numField row ("ArgP")).isSome = true ∧
  (numField row ("MeanAnom")).isSome = true ∧
  jsTrim (jsGetD row ("Epoch")) ≠ ""

/-- The validity predicate exactly as the claim words it, literally: the
epoch field itself (untrimmed) must be a non-empty string. -/
def validLiteral (row : Row) : Bool :=
  (match numField row ("SMA") with
   | some q => decide (0 < q)
   | none => false)
  && (numField row ("Inc")).isSome && (numField row ("Ecc")).isSome
  && (numField row ("RAAN")).isSome && (numField row ("ArgP")).isSome
  && (numField row ("MeanAnom")).isSome
  && decide (jsGetD row ("Epoch") ≠ "")

/-- First-encounter order of the distinct non-empty trimmed descriptor ids,
relative to ids already `seen`. -/
def dedupIds : List Row → List String → List String
  | [], _ => []
  | r :: rs, seen =>
    if jsTrim (jsGetD r ("DataSourceId")) = "" ∨ jsTrim (jsGetD r ("DataSourceId")) ∈ seen then
      dedupIds rs seen
    else jsTrim (jsGetD r ("DataSourceId")) :: dedupIds rs (jsTrim (jsGetD r ("DataSourceId")) :: seen)

/-- The name contributed by the last descriptor row whose trimmed id is `id`
(`none` when no row has that id, or when `id` is empty). -/
def lastNameFor : List Row → String → Option String
  | [], _ => none
  | r :: rs, id =>
    match lastNameFor rs id with
    | some n => some n
    | none =>
      if id ≠ "" ∧ jsTrim (jsGetD r ("DataSourceId")) = id then some (normName r) else none

/-- Plain-decimal characters: digits, the decimal point, a leading minus. -/
def plainChar (c : Char) : Bool := c.isDigit || c == '.' || c == '-'

/-- Every character `String(number)` can ever produce: plain-decimal
characters plus the exponent marker and its sign. -/
def serialChar (c : Char) : Bool := plainChar c || c == 'e' || c == '+'

/-! ### Concrete inputs used by counterexamples and witnesses -/

def dsTsvEx : String := "DataSourceId\tName\n0\tUSSPACECOM"

def rsoTsvEx : String :=
  "DataSourceId\tNoradId\tSMA\tEcc\tInc\tRAAN\tArgP\tMeanAnom\tEpoch\n9\t25544\t1\t0\t0\t0\t0\t0\t2024-01-01"

def jsEx : String :=
  "var dataSources = `" ++ dsTsvEx ++ "`\nvar intactRso = `" ++ rsoTsvEx ++ "`"

/-- The single RSO row of `rsoTsvEx`, as `parseTSV` loads it. -/
def rowEx : Row :=
  [(("DataSourceId"), ("9")), (("NoradId"), ("25544")), (("SMA"), ("1")), (("Ecc"), ("0")),
   (("Inc"), ("0")), (("RAAN"), ("0")), (("ArgP"), ("0")), (("MeanAnom"), ("0")),
   (("Epoch"), ("2024-01-01"))]

/-- All orbital elements valid, but the epoch is a whitespace-only string:
a non-empty string whose trim is empty. -/
def rowWsEpoch : Row :=
  [(("SMA"), ("1")), (("Inc"), ("0")), (("Ecc"), ("0")), (("RAAN"), ("0")),
   (("ArgP"), ("0")), (("MeanAnom"), ("0")), (("Epoch"), (" "))]

def mkRsoRow (src norad epoch nm : String) : Row :=
  [(("DataSourceId"), src), (("NoradId"), norad), (("SMA"), ("1")), (("Ecc"), ("0")),
   (("Inc"), ("0")), (("RAAN"), ("0")), (("ArgP"), ("0")), (("MeanAnom"), ("0")),
   (("Epoch"), epoch), (("Name"), nm)]

/-- Priority-dominance witness pair: source `"0"` beats source `"4"` even
with an older epoch. -/
def aEx1 : Row := mkRsoRow ("0") ("25544") ("2024-01-01") ("first")

def bEx1 : Row := mkRsoRow ("4") ("25544") ("2024-06-01") ("second")

/-- Recency witness records: same source `"4"`, epochs half a year apart,
and one with an unparsable epoch. -/
def aEx3 : Row := mkRsoRow ("4") ("25544") ("2024-06-01") ("late")

def bEx3 : Row := mkRsoRow ("4") ("25544") ("2024-01-01") ("early")

def cEx3 : Row := mkRsoRow ("4") ("25544") ("notadate") ("unparsable")

/-- Tie witness records: same unlisted source, identical epochs. -/
def aEx4 : Row := mkRsoRow ("8") ("25544") ("2024-01-01") ("first")

def bEx4 : Row := mkRsoRow ("8") ("25544") ("2024-01-01") ("second")

def tsvEx7 : String := "A\tB\nx\ny\tz"

def tableEx7 : TSVTable := ⟨[("A"), ("B")], [[(("A"), ("y")), (("B"), ("z"))]]⟩

/-- A GP record whose eccentricity is 1e-7, below the plain-decimal window. -/
def gpEx : GPObj :=
  ⟨("SAT"), ("1998-067A"), ("2024-01-01T00:00:00"), ("0"), ("0.0000001"),
   ("0"), ("0"), ("0"), ("0"), ("25544")⟩

/-! ## Helper lemmas -/

theorem listToStr_toList (cs : List Char) : (listToStr cs).toList = cs := rfl

theorem jsMapGet_jsMapSet {α : Type} (m : List (String × α)) (k0 k : String) (v : α) :
    jsMapGet (jsMapSet m k0 v) k = if k0 = k then some v else jsMapGet m k := by
  induction m with
  | nil => by_cases h : k0 = k <;> simp [jsMapSet, jsMapGet, h]
  | cons p rest ih =>
    obtain ⟨k1, v1⟩ := p
    by_cases h1 : k1 = k0
    · subst h1
      by_cases h2 : k1 = k <;> simp [jsMapSet, jsMapGet, h2]
    · by_cases h2 : k1 = k
      · subst h2
        have : k0 ≠ k1 := fun h => h1 h.symm
        simp [jsMapSet, jsMapGet, h1, this]
      · simp [jsMapSet, jsMapGet, h1, h2, ih]

theorem jsMapSet_keys_mem {α : Type} (m : List (String × α)) (k : String) (v : α)
    (h : k ∈ m.map Prod.fst) : (jsMapSet m k v).map Prod.fst = m.map Prod.fst := by
  induction m with
  | nil => simp at h
  | cons p rest ih =>
    obtain ⟨k1, v1⟩ := p
    by_cases h1 : k1 = k
    · simp [jsMapSet, h1]
    · have : k ∈ rest.map Prod.fst := by
        rcases List.mem_cons.mp h with h2 | h2
        · exact absurd h2.symm h1
        · exact h2
      simp [jsMapSet, h1, ih this]

theorem jsMapSet_keys_new {α : Type} (m : List (String × α)) (k : String) (v : α)
    (h : k ∉ m.map Prod.fst) : (jsMapSet m k v).map Prod.fst = m.map Prod.fst ++ [k] := by
  induction m with
  | nil => simp [jsMapSet]
  | cons p rest ih =>
    obtain ⟨k1, v1⟩ := p
    have h1 : k1 ≠ k := by
      intro hk; exact h (by simp [hk])
    have h2 : k ∉ rest.map Prod.fst := fun hk => h (by simp [hk])
    simp [jsMapSet, h1, ih h2]

theorem edGT_irrefl (o : Option ℤ) : edGT o o = false := by
  cases o with
  | none => rfl
  | some t => simp [edGT]

theorem better_none (a : Row) : better a none = true := rfl

theorem better_some (a b : Row) :
    better a (some b) =
      if rawPri a ≠ rawPri b then decide (adjPri (rawPri a) < adjPri (rawPri b))
      else edGT (epochToDate a) (epochToDate b) := rfl

/-- Reconciling exactly two valid records with the same non-empty key comes
down to a single `better` comparison of the second against the first. -/
theorem reconcile_pair (a b : Row) (k : String)
    (hva : hasValidElems a = true) (hvb : hasValidElems b = true)
    (hka : jsTrim (jsGetD a ("NoradId")) = k) (hkb : jsTrim (jsGetD b ("NoradId")) = k)
    (hk : k ≠ "") :
    reconcile [a, b] = if better b (some a) = true then [(k, b)] else [(k, a)] := by
  have step1 : reconStep [] a = [(k, a)] := by
    unfold reconStep
    rw [hka, if_pos hva, if_neg hk]
    simp [jsMapGet, jsMapSet, better_none]
  have hget : jsMapGet [(k, a)] k = some a := by simp [jsMapGet]
  unfold reconcile
  rw [List.foldl_cons, List.foldl_cons, List.foldl_nil, step1]
  unfold reconStep
  rw [hkb, if_pos hvb, if_neg hk, hget]
  by_cases hb : better b (some a) = true
  · rw [if_pos hb, if_pos hb]
    simp [jsMapSet]
  · rw [if_neg hb, if_neg hb]

/-! ## Claim theorems -/

/-- C1.  Priority dominance: for two valid records with the same non-empty
trimmed `NoradId`, if the first record's source has a strictly better adjusted
priority (earlier in the `priority` list, with unlisted sources ranking after
all listed ones through the `999` sentinel), the reconciliation for that key
carries the first record, whatever the epochs and whichever of the two
processing orders is used. -/
theorem priority_dominance (a b : Row) (k : String)
    (hva : hasValidElems a = true) (hvb : hasValidElems b = true)
    (hka : jsTrim (jsGetD a ("NoradId")) = k) (hkb : jsTrim (jsGetD b ("NoradId")) = k)
    (hk : k ≠ "") (hpri : adjPri (rawPri a) < adjPri (rawPri b)) :
    jsMapGet (reconcile [a, b]) k = some a ∧ jsMapGet (reconcile [b, a]) k = some a := by
  have hne : rawPri a ≠ rawPri b := by
    intro h
    rw [h] at hpri
    exact lt_irrefl _ hpri
  have hba : better b (some a) = false := by
    rw [better_some, if_pos (Ne.symm hne)]
    exact decide_eq_false (not_lt.mpr (le_of_lt hpri))
  have hab : better a (some b) = true := by
    rw [better_some, if_pos hne]
    exact decide_eq_true hpri
  constructor
  · rw [reconcile_pair a b k hva hvb hka hkb hk, if_neg (by rw [hba]; exact Bool.false_ne_true)]
    simp [jsMapGet]
  · rw [reconcile_pair b a k hvb hva hkb hka hk, if_pos hab]
    simp [jsMapGet]

theorem priority_dominance_witness :
    jsMapGet (reconcile [aEx1, bEx1]) ("25544") = some aEx1 ∧
    jsMapGet (reconcile [bEx1, aEx1]) ("25544") = some aEx1 :=
  priority_dominance aEx1 bEx1 ("25544") (by decide) (by decide) (by decide) (by decide)
    (by decide) (by decide)

/-- C3.  Recency tiebreak: for two valid records with the same non-empty
trimmed `NoradId` and the same raw priority index, the record whose epoch
parses to the later instant wins in either processing order, and a record
with an unparsable epoch (the script's `-Infinity`) loses to one whose epoch
parses, in either processing order. -/
theorem recency_tiebreak (a b : Row) (k : String) (ta : ℤ)
    (hva : hasValidElems a = true) (hvb : hasValidElems b = true)
    (hka : jsTrim (jsGetD a ("NoradId")) = k) (hkb : jsTrim (jsGetD b ("NoradId")) = k)
    (hk : k ≠ "") (hpri : rawPri a = rawPri b) (hea : epochToDate a = some ta) :
    (∀ tb : ℤ, epochToDate b = some tb → tb < ta →
      jsMapGet (reconcile [a, b]) k = some a ∧ jsMapGet (reconcile [b, a]) k = some a) ∧
    (epochToDate b = none →
      jsMapGet (reconcile [a, b]) k = some a ∧ jsMapGet (reconcile [b, a]) k = some a) := by
  have hprine : ¬ rawPri b ≠ rawPri a := by simp [hpri.symm]
  have hprine' : ¬ rawPri a ≠ rawPri b := by simp [hpri]
  constructor
  · intro tb heb hlt
    have hba : better b (some a) = false := by
      rw [better_some, if_neg hprine, heb, hea]
      simp [edGT]
      exact le_of_lt hlt
    have hab : better a (some b) = true := by
      rw [better_some, if_neg hprine', hea, heb]
      simp [edGT]
      exact hlt
    constructor
    · rw [reconcile_pair a b k hva hvb hka hkb hk, if_neg (by rw [hba]; exact Bool.false_ne_true)]
      simp [jsMapGet]
    · rw [reconcile_pair b a k hvb hva hkb hka hk, if_pos hab]
      simp [jsMapGet]
  · intro heb
    have hba : better b (some a) = false := by
      rw [better_some, if_neg hprine, heb, hea]
      rfl
    have hab : better a (some b) = true := by
      rw [better_some, if_neg hprine', hea, heb]
      rfl
    constructor
    · rw [reconcile_pair a b k hva hvb hka hkb hk, if_neg (by rw [hba]; exact Bool.false_ne_true)]
      simp [jsMapGet]
    · rw [reconcile_pair b a k hvb hva hkb hka hk, if_pos hab]
      simp [jsMapGet]

theorem recency_tiebreak_witness :
    (jsMapGet (reconcile [aEx3, bEx3]) ("25544") = some aEx3 ∧
     jsMapGet (reconcile [bEx3, aEx3]) ("25544") = some aEx3) ∧
    (jsMapGet (reconcile [aEx3, cEx3]) ("25544") = some aEx3 ∧
     jsMapGet (reconcile [cEx3, aEx3]) ("25544") = some aEx3) :=
  ⟨(recency_tiebreak aEx3 bEx3 ("25544") 65066371200000 (by decide) (by decide) (by decide)
      (by decide) (by decide) (by decide) (by decide)).1 65052979200000 (by decide) (by decide),
   (recency_tiebreak aEx3 cEx3 ("25544") 65066371200000 (by decide) (by decide) (by decide)
      (by decide) (by decide) (by decide) (by decide)).2 (by decide)⟩

/-- C4.  Determinism under tie: for two valid records with the same non-empty
trimmed `NoradId`, equal raw priority and equal epoch value, the record
encountered first wins.  The whole pipeline is a pure function of its input
(`pipeline_deterministic`), so this outcome is identical on every run. -/
theorem tie_first_seen (a b : Row) (k : String)
    (hva : hasValidElems a = true) (hvb : hasValidElems b = true)
    (hka : jsTrim (jsGetD a ("NoradId")) = k) (hkb : jsTrim (jsGetD b ("NoradId")) = k)
    (hk : k ≠ "") (hpri : rawPri a = rawPri b) (hep : epochToDate a = epochToDate b) :
    jsMapGet (reconcile [a, b]) k = some a ∧ jsMapGet (reconcile [b, a]) k = some b := by
  have hba : better b (some a) = false := by
    rw [better_some, if_neg (by simp [hpri.symm]), ← hep, edGT_irrefl]
  have hab : better a (some b) = false := by
    rw [better_some, if_neg (by simp [hpri]), hep, edGT_irrefl]
  constructor
  · rw [reconcile_pair a b k hva hvb hka hkb hk, if_neg (by rw [hba]; exact Bool.false_ne_true)]
    simp [jsMapGet]
  · rw [reconcile_pair b a k hvb hva hkb hka hk, if_neg (by rw [hab]; exact Bool.false_ne_true)]
    simp [jsMapGet]

theorem tie_first_seen_witness :
    jsMapGet (reconcile [aEx4, bEx4]) ("25544") = some aEx4 ∧
    jsMapGet (reconcile [bEx4, aEx4]) ("25544") = some bEx4 :=
  tie_first_seen aEx4 bEx4 ("25544") (by decide) (by decide) (by decide) (by decide)
    (by decide) (by decide) (by decide)

/-- C9.  Determinism of the whole pipeline: the conversion is a pure function
of the source text, so two runs on identical inputs produce byte-identical
descriptor and object tables.  The hard-coded `priority` list and unit
conventions are constants of the program, and the insertion-ordered `Map`
model fixes the iteration order, so no other input exists. -/
theorem pipeline_deterministic (t1 t2 : String) (h : t1 = t2) :
    convertPipeline t1 = convertPipeline t2 := by rw [h]

theorem pipeline_deterministic_witness : convertPipeline jsEx = convertPipeline jsEx :=
  pipeline_deterministic jsEx jsEx rfl

theorem parseRows_eq (header : List String) (ls : List String) :
    parseRows header ls =
      (ls.filter (fun l => decide (header.length ≤ (splitTab l).length))).map
        (fun l => buildRec header (splitTab l)) := by
  induction ls with
  | nil => rfl
  | cons l ls ih =>
    by_cases h : (splitTab l).length < header.length
    · rw [parseRows, if_pos h, List.filter_cons]
      rw [if_neg (by simp [Nat.not_le.mpr h])]
      exact ih
    · rw [parseRows, if_neg h, List.filter_cons]
      rw [if_pos (by simp [Nat.le_of_not_lt h])]
      rw [List.map_cons, ih]

/-- C7.  Tolerant loading: whenever `parseTSV` succeeds (there is a header
line), the produced records are exactly one per data row with at least as
many tokens as the header, every shorter data row being skipped silently and
leaving the records of the remaining rows untouched. -/
theorem parseTSV_skips_short_rows (tsv : String) (t : TSVTable)
    (h : parseTSV tsv = some t) :
    t.rows = (((jsLines tsv).drop 1).filter
        (fun l => decide (t.header.length ≤ (splitTab l).length))).map
        (fun l => buildRec t.header (splitTab l)) := by
  unfold parseTSV at h
  cases hl : jsLines tsv with
  | nil => rw [hl] at h; exact absurd h (by simp)
  | cons l0 rest =>
    rw [hl] at h
    have ht : t = ⟨splitTab l0, parseRows (splitTab l0) rest⟩ := (Option.some_inj.mp h).symm
    subst ht
    simpa using parseRows_eq (splitTab l0) rest

theorem parseTSV_skips_short_rows_witness :
    tableEx7.rows = (((jsLines tsvEx7).drop 1).filter
        (fun l => decide (tableEx7.header.length ≤ (splitTab l).length))).map
        (fun l => buildRec tableEx7.header (splitTab l)) :=
  parseTSV_skips_short_rows tsvEx7 tableEx7 (by decide)

/-- The object table emitted by the pipeline is determined by the `intactRso`
extract alone: the descriptor data never influences it. -/
theorem pipeline_snd (t : String) (o : String × String) (h : convertPipeline t = some o) :
    ∃ rsoTsv rso, extractBacktick ("intactRso") t = some rsoTsv ∧
      parseTSV rsoTsv = some rso ∧ o.2 = joinSep ("\n") (nodebLines rso.rows) := by
  unfold convertPipeline at h
  cases h1 : extractBacktick ("dataSources") t with
  | none => rw [h1] at h; exact absurd h (by simp)
  | some dsTsv =>
    cases h2 : extractBacktick ("intactRso") t with
    | none => rw [h1, h2] at h; exact absurd h (by simp)
    | some rsoTsv =>
      rw [h1, h2] at h
      dsimp only at h
      cases h3 : parseTSV dsTsv with
      | none => rw [h3] at h; exact absurd h (by simp)
      | some ds =>
        cases h4 : parseTSV rsoTsv with
        | none => rw [h3, h4] at h; exact absurd h (by simp)
        | some rso =>
          rw [h3, h4] at h
          dsimp only at h
          exact ⟨rsoTsv, rso, rfl, h4, (Option.some_inj.mp h).symm ▸ rfl⟩

/-- C2 (amended).  The emitter never consults the descriptor table: every
reconciled object's row is present in the emitted object table, and the
object table depends only on the `intactRso` extract, so a winning record
whose `sourceId` resolves to no descriptor is emitted all the same. -/
theorem emit_unconditional :
    (∀ (rows : List Row) (p : String × Row), p ∈ reconcile rows →
      outRow p.2 ∈ nodebLines rows) ∧
    (∀ (t1 t2 : String) (o1 o2 : String × String),
      convertPipeline t1 = some o1 → convertPipeline t2 = some o2 →
      extractBacktick ("intactRso") t1 = extractBacktick ("intactRso") t2 →
      o1.2 = o2.2) := by
  constructor
  · intro rows p hp
    exact List.mem_cons_of_mem _ (List.mem_map_of_mem _ hp)
  · intro t1 t2 o1 o2 h1 h2 hrso
    obtain ⟨r1, rso1, he1, hp1, ho1⟩ := pipeline_snd t1 o1 h1
    obtain ⟨r2, rso2, he2, hp2, ho2⟩ := pipeline_snd t2 o2 h2
    rw [he1, he2] at hrso
    have : r1 = r2 := Option.some_inj.mp hrso
    subst this
    rw [hp1] at hp2
    have : rso1 = rso2 := Option.some_inj.mp hp2
    subst this
    rw [ho1, ho2]

set_option maxRecDepth 20000 in
theorem emit_unconditional_witness :
    outRow ((("25544"), rowEx) : String × Row).2 ∈ nodebLines (rowsOf rsoTsvEx) :=
  emit_unconditional.1 (rowsOf rsoTsvEx) (("25544"), rowEx) (by decide)

set_option maxRecDepth 20000 in
/-- C2 (counterexample).  On a concrete input the single reconciled winner
declares source `"9"`, the descriptor table's only code is `"0"`, and the
winner's row is nevertheless emitted into the object table with `DataSource`
cell `"9"`: no consistency check drops it. -/
theorem descriptor_consistency_cex :
    (buildIdToName (rowsOf dsTsvEx)).map Prod.fst = [("0")] ∧
    reconcile (rowsOf rsoTsvEx) = [(("25544"), rowEx)] ∧
    jsTrim (jsGetD rowEx ("DataSourceId")) = ("9") ∧
    ((buildIdToName (rowsOf dsTsvEx)).map Prod.fst).contains ("9") = false ∧
    nodebLines (rowsOf rsoTsvEx) = [headerOut, outRow rowEx] ∧
    (outCells rowEx).head? = some ("9") := by decide

theorem reconcile_values_valid_aux (rows : List Row) :
    ∀ m : List (String × Row), (∀ k r, jsMapGet m k = some r → hasValidElems r = true) →
      ∀ k r, jsMapGet (List.foldl reconStep m rows) k = some r → hasValidElems r = true := by
  induction rows with
  | nil => intro m hm; simpa using hm
  | cons row rows ih =>
    intro m hm
    rw [List.foldl_cons]
    apply ih
    intro k r hk
    unfold reconStep at hk
    by_cases hv : hasValidElems row = true
    · rw [if_pos hv] at hk
      by_cases hkey : jsTrim (jsGetD row ("NoradId")) = ""
      · rw [if_pos hkey] at hk
        exact hm k r hk
      · rw [if_neg hkey] at hk
        by_cases hb : better row (jsMapGet m (jsTrim (jsGetD row ("NoradId")))) = true
        · rw [if_pos hb, jsMapGet_jsMapSet] at hk
          by_cases hkk : jsTrim (jsGetD row ("NoradId")) = k
          · rw [if_pos hkk] at hk
            rw [← Option.some_inj.mp hk]
            exact hv
          · rw [if_neg hkk] at hk
            exact hm k r hk
        · rw [if_neg hb] at hk
          exact hm k r hk
    · rw [if_neg hv] at hk
      exact hm k r hk

/-- C5 (amended).  The validity predicate holds exactly when the SMA converts
to a finite number strictly greater than zero, the five other element fields
all convert to finite numbers, and the epoch is non-empty after trimming
(`ValidSpec`); moreover an invalid record is a no-op of the reconciliation
fold (deleting it changes nothing), and every record stored in the
reconciliation result is valid. -/
theorem validity_characterization :
    (∀ row : Row, hasValidElems row = true ↔ ValidSpec row) ∧
    (∀ r : Row, hasValidElems r = false →
      ∀ pre post : List Row, reconcile (pre ++ r :: post) = reconcile (pre ++ post)) ∧
    (∀ (rows : List Row) (k : String) (r : Row),
      jsMapGet (reconcile rows) k = some r → hasValidElems r = true) := by
  refine ⟨?_, ?_, ?_⟩
  · intro row
    unfold hasValidElems ValidSpec
    cases h : numField row ("SMA") with
    | none => simp [h]
    | some q => simp [h, Bool.and_eq_true, decide_eq_true_eq, and_assoc]
  · intro r hr pre post
    unfold reconcile
    rw [List.foldl_append, List.foldl_append, List.foldl_cons]
    have : reconStep (List.foldl reconStep [] pre) r = List.foldl reconStep [] pre := by
      unfold reconStep
      rw [hr]
      simp
    rw [this]
  · intro rows k r h
    exact reconcile_values_valid_aux rows [] (by intro k' r' h'; simp [jsMapGet] at h') k r h

theorem validity_characterization_witness :
    hasValidElems rowWsEpoch = false ∧
    reconcile ([] ++ rowWsEpoch :: []) = reconcile ([] ++ []) :=
  ⟨by decide, validity_characterization.2.1 rowWsEpoch (by decide) [] []⟩

/-- C5 (counterexample).  A record whose epoch is the one-character
whitespace string `" "` — a non-empty string — with all six element fields
finite and SMA positive satisfies the claim's literal validity predicate but
is rejected by `hasValidElems`, which tests the trimmed epoch. -/
theorem validity_literal_cex :
    validLiteral rowWsEpoch = true ∧ hasValidElems rowWsEpoch = false := by decide

theorem dedupIds_seen_congr (rows : List Row) :
    ∀ s1 s2 : List String, (∀ x, x ∈ s1 ↔ x ∈ s2) → dedupIds rows s1 = dedupIds rows s2 := by
  induction rows with
  | nil => intro s1 s2 _; rfl
  | cons r rs ih =>
    intro s1 s2 h
    unfold dedupIds
    by_cases hc : jsTrim (jsGetD r ("DataSourceId")) = "" ∨ jsTrim (jsGetD r ("DataSourceId")) ∈ s1
    · have hc2 : jsTrim (jsGetD r ("DataSourceId")) = "" ∨ jsTrim (jsGetD r ("DataSourceId")) ∈ s2 := by
        rcases hc with h1 | h1
        · exact Or.inl h1
        · exact Or.inr ((h _).mp h1)
      rw [if_pos hc, if_pos hc2]
      exact ih s1 s2 h
    · have hc2 : ¬ (jsTrim (jsGetD r ("DataSourceId")) = "" ∨ jsTrim (jsGetD r ("DataSourceId")) ∈ s2) := by
        intro hor
        rcases hor with h1 | h1
        · exact hc (Or.inl h1)
        · exact hc (Or.inr ((h _).mpr h1))
      rw [if_neg hc, if_neg hc2]
      rw [ih (jsTrim (jsGetD r ("DataSourceId")) :: s1) (jsTrim (jsGetD r ("DataSourceId")) :: s2)
        (by intro x; simp [h x])]

theorem buildIdToName_keys_aux (rows : List Row) :
    ∀ m : List (String × String),
      (List.foldl dsStep m rows).map Prod.fst = m.map Prod.fst ++ dedupIds rows (m.map Prod.fst) := by
  induction rows with
  | nil => intro m; simp [dedupIds]
  | cons r rs ih =>
    intro m
    rw [List.foldl_cons]
    unfold dedupIds
    by_cases h0 : jsTrim (jsGetD r ("DataSourceId")) = ""
    · have hstep : dsStep m r = m := by
        unfold dsStep
        rw [if_neg (by simp [h0])]
      rw [hstep, if_pos (Or.inl h0)]
      exact ih m
    · have hstep : dsStep m r = jsMapSet m (jsTrim (jsGetD r ("DataSourceId"))) (normName r) := by
        unfold dsStep
        rw [if_pos h0]
      by_cases hmem : jsTrim (jsGetD r ("DataSourceId")) ∈ m.map Prod.fst
      · rw [hstep, if_pos (Or.inr hmem), ih]
        rw [jsMapSet_keys_mem m _ _ hmem]
      · rw [hstep, if_neg (by simp [h0, hmem]), ih]
        rw [jsMapSet_keys_new m _ _ hmem]
        rw [dedupIds_seen_congr rs (m.map Prod.fst ++ [jsTrim (jsGetD r ("DataSourceId"))])
          (jsTrim (jsGetD r ("DataSourceId")) :: m.map Prod.fst) (by intro x; simp; tauto)]
        simp

theorem lastNameFor_cons (r : Row) (rs : List Row) (id : String) :
    lastNameFor (r :: rs) id =
      match lastNameFor rs id with
      | some n => some n
      | none =>
        if id ≠ "" ∧ jsTrim (jsGetD r ("DataSourceId")) = id then some (normName r)
        else none := rfl

theorem buildIdToName_values_aux (rows : List Row) :
    ∀ (m : List (String × String)) (id : String),
      jsMapGet (List.foldl dsStep m rows) id =
        (lastNameFor rows id).elim (jsMapGet m id) some := by
  induction rows with
  | nil => intro m id; rfl
  | cons r rs ih =>
    intro m id
    rw [List.foldl_cons, ih, lastNameFor_cons]
    cases hrec : lastNameFor rs id with
    | some n => rfl
    | none =>
      show jsMapGet (dsStep m r) id = _
      by_cases h0 : jsTrim (jsGetD r ("DataSourceId")) = ""
      · have hstep : dsStep m r = m := by
          unfold dsStep
          rw [if_neg (by simp [h0])]
        have hid : ¬ (id ≠ "" ∧ jsTrim (jsGetD r ("DataSourceId")) = id) := by
          intro hc
          exact hc.1 (hc.2.symm.trans h0)
        rw [hstep, if_neg hid]
        rfl
      · have hstep : dsStep m r = jsMapSet m (jsTrim (jsGetD r ("DataSourceId"))) (normName r) := by
          unfold dsStep
          rw [if_pos h0]
        rw [hstep, jsMapGet_jsMapSet]
        by_cases ht : jsTrim (jsGetD r ("DataSourceId")) = id
        · rw [if_pos ht, if_pos ⟨fun he => h0 (ht.trans he), ht⟩]
          rfl
        · rw [if_neg ht, if_neg (fun hc => ht hc.2)]
          rfl

/-- C10.  Layout of the emitted descriptor map: its keys are exactly the
distinct non-empty trimmed ids in first-encounter order (rows whose id trims
to the empty string contribute nothing), and the value stored under each id
is the (normalised) name of the last input row carrying that id. -/
theorem descriptor_table_layout (rows : List Row) :
    (buildIdToName rows).map Prod.fst = dedupIds rows [] ∧
    ∀ id : String, jsMapGet (buildIdToName rows) id = lastNameFor rows id := by
  constructor
  · have := buildIdToName_keys_aux rows []
    simpa [buildIdToName] using this
  · intro id
    have := buildIdToName_values_aux rows [] id
    rw [buildIdToName, this]
    cases lastNameFor rows id with
    | none => rfl
    | some n => rfl

/-- C6.  Domain policy of the mean-motion conversion: a mean motion that is
not a finite number, or is non-positive, yields the unset value `none` (the
script's empty string) — in particular never the number `0` and never a
`NaN`, since every produced value is a strictly positive real; a positive
finite mean motion `n` yields `cbrt(mu / omega^2)` with
`omega = n * 2 * pi / 86400`, the cube root of a positive real taken as
`rpow (1/3)`. -/
theorem sma_conversion_policy (s : String) :
    (jsNumber? s = none → smaFromMeanMotionRevPerDay s = none) ∧
    (∀ n : ℚ, jsNumber? s = some n → n ≤ 0 → smaFromMeanMotionRevPerDay s = none) ∧
    (∀ n : ℚ, jsNumber? s = some n → 0 < n →
      smaFromMeanMotionRevPerDay s =
        some ((MU_EARTH / (((n : ℝ) * 2 * Real.pi / 86400) ^ 2)) ^ ((1 : ℝ) / 3))) ∧
    (∀ r : ℝ, smaFromMeanMotionRevPerDay s = some r → 0 < r) := by
  refine ⟨?_, ?_, ?_, ?_⟩
  · intro h
    unfold smaFromMeanMotionRevPerDay
    rw [h]
  · intro n h hle
    unfold smaFromMeanMotionRevPerDay
    rw [h]
    simp [hle]
  · intro n h hpos
    unfold smaFromMeanMotionRevPerDay
    rw [h]
    dsimp only
    rw [if_neg (not_le.mpr hpos)]
  · intro r h
    unfold smaFromMeanMotionRevPerDay at h
    cases hn : jsNumber? s with
    | none => rw [hn] at h; exact absurd h (by simp)
    | some n =>
      rw [hn] at h
      dsimp only at h
      by_cases hle : n ≤ 0
      · rw [if_pos hle] at h
        exact absurd h (by simp)
      · rw [if_neg hle] at h
        rw [← Option.some_inj.mp h]
        apply Real.rpow_pos_of_pos
        apply div_pos
        · norm_num [MU_EARTH]
        · have hn' : (0 : ℝ) < (n : ℝ) := by
            exact_mod_cast lt_of_not_le hle
          have hpi := Real.pi_pos
          positivity

theorem sma_conversion_policy_witness :
    jsNumber? ("-1") = some (-1) ∧ smaFromMeanMotionRevPerDay ("-1") = none :=
  ⟨by decide, (sma_conversion_policy ("-1")).2.1 (-1) (by decide) (by decide)⟩

theorem natDigitsAux_congr : ∀ f g n : ℕ, n ≤ f → n ≤ g → natDigitsAux f n = natDigitsAux g n := by
  intro f
  induction f with
  | zero =>
    intro g n hf hg
    have : n = 0 := by omega
    subst this
    cases g <;> rfl
  | succ f ih =>
    intro g n hf hg
    cases n with
    | zero => cases g <;> rfl
    | succ n =>
      cases g with
      | zero => omega
      | succ g =>
        show (n + 1) % 10 :: natDigitsAux f ((n + 1) / 10) =
          (n + 1) % 10 :: natDigitsAux g ((n + 1) / 10)
        have hd : (n + 1) / 10 < n + 1 := Nat.div_lt_self (Nat.succ_pos n) (by norm_num)
        rw [ih g ((n + 1) / 10) (by omega) (by omega)]

theorem natDigits_succ (n : ℕ) (h : 0 < n) : natDigits n = n % 10 :: natDigits (n / 10) := by
  obtain ⟨m, rfl⟩ : ∃ m, n = m + 1 := ⟨n - 1, by omega⟩
  show (m + 1) % 10 :: natDigitsAux m ((m + 1) / 10) = (m + 1) % 10 :: natDigits ((m + 1) / 10)
  have hd : (m + 1) / 10 < m + 1 := Nat.div_lt_self (Nat.succ_pos m) (by norm_num)
  rw [natDigitsAux_congr m ((m + 1) / 10) ((m + 1) / 10) (by omega) (le_refl _)]
  rfl

theorem natDigits_bounds : ∀ N : ℕ, 0 < N →
    10 ^ (natDigits N).length ≤ 10 * N ∧ N < 10 ^ (natDigits N).length := by
  intro N
  induction N using Nat.strong_induction_on with
  | _ N ih =>
    intro hN
    rw [natDigits_succ N hN]
    by_cases h10 : N < 10
    · have hq : N / 10 = 0 := Nat.div_eq_of_lt h10
      rw [hq]
      show 10 ^ (N % 10 :: natDigits 0).length ≤ 10 * N ∧ N < 10 ^ (N % 10 :: natDigits 0).length
      have hz : natDigits 0 = [] := rfl
      rw [hz]
      simp only [List.length_cons, List.length_nil]
      constructor
      · omega
      · omega
    · have hq : 0 < N / 10 := Nat.div_pos (by omega) (by norm_num)
      have hlt : N / 10 < N := Nat.div_lt_self hN (by norm_num)
      obtain ⟨ih1, ih2⟩ := ih (N / 10) hlt hq
      rw [List.length_cons]
      have hpow : (10:ℕ) ^ ((natDigits (N / 10)).length + 1) =
          10 * 10 ^ (natDigits (N / 10)).length := by ring
      have hmul : 10 * (N / 10) ≤ N := by omega
      constructor
      · rw [hpow]; omega
      · rw [hpow]; omega

theorem digitChar_plain (d : ℕ) : plainChar (digitChar d) = true := by
  rcases d with _|_|_|_|_|_|_|_|_|_|d <;> rfl

theorem plain_serial {c : Char} (h : plainChar c = true) : serialChar c = true := by
  unfold serialChar
  rw [h]
  rfl

theorem all_sub {p : Char → Bool} {l1 l2 : List Char} (hsub : l1 ⊆ l2)
    (h : l2.all p = true) : l1.all p = true := by
  rw [List.all_eq_true] at h ⊢
  intro x hx
  exact h x (hsub hx)

theorem all_plain_digitChars (sig : List ℕ) : (sig.map digitChar).all plainChar = true := by
  rw [List.all_eq_true]
  intro x hx
  rcases List.mem_map.mp hx with ⟨d, _, rfl⟩
  exact digitChar_plain d

theorem all_mono_serial {l : List Char} (h : l.all plainChar = true) :
    l.all serialChar = true := by
  rw [List.all_eq_true] at h ⊢
  intro x hx
  exact plain_serial (h x hx)

theorem all_replicate_plain (m : ℕ) : (List.replicate m '0').all plainChar = true := by
  rw [List.all_eq_true]
  intro x hx
  rw [List.eq_of_mem_replicate hx]
  rfl

theorem all_serial_expChars (n : ℤ) : (expChars n).all serialChar = true := by
  unfold expChars
  split
  · rw [List.all_cons, List.all_cons, Bool.and_eq_true, Bool.and_eq_true]
    exact ⟨rfl, rfl, all_mono_serial (all_plain_digitChars _)⟩
  · rw [List.all_cons, List.all_cons, Bool.and_eq_true, Bool.and_eq_true]
    exact ⟨rfl, rfl, all_mono_serial (all_plain_digitChars _)⟩

theorem formatDigits_plain (sig : List ℕ) (k : ℕ) (n : ℤ)
    (h1 : -6 < n) (h2 : n ≤ 21) :
    (formatDigits sig k n).toList.all plainChar = true := by
  unfold formatDigits
  split
  · rw [listToStr_toList, List.all_append, Bool.and_eq_true]
    exact ⟨all_plain_digitChars sig, all_replicate_plain _⟩
  · split
    · rw [listToStr_toList, List.all_append, Bool.and_eq_true, List.all_cons, Bool.and_eq_true]
      exact ⟨all_sub (List.take_subset _ _) (all_plain_digitChars sig), rfl,
        all_sub (List.drop_subset _ _) (all_plain_digitChars sig)⟩
    · split
      · rw [listToStr_toList, List.all_cons, List.all_cons, List.all_append,
          Bool.and_eq_true, Bool.and_eq_true, Bool.and_eq_true]
        exact ⟨rfl, rfl, all_replicate_plain _, all_plain_digitChars sig⟩
      · rename_i hc1 hc2 hc3
        exfalso
        push_neg at hc1 hc2 hc3
        omega

theorem formatDigits_serial (sig : List ℕ) (k : ℕ) (n : ℤ) :
    (formatDigits sig k n).toList.all serialChar = true := by
  unfold formatDigits
  split
  · rw [listToStr_toList, List.all_append, Bool.and_eq_true]
    exact ⟨all_mono_serial (all_plain_digitChars sig), all_mono_serial (all_replicate_plain _)⟩
  · split
    · rw [listToStr_toList, List.all_append, Bool.and_eq_true, List.all_cons, Bool.and_eq_true]
      exact ⟨all_mono_serial (all_sub (List.take_subset _ _) (all_plain_digitChars sig)), rfl,
        all_mono_serial (all_sub (List.drop_subset _ _) (all_plain_digitChars sig))⟩
    · split
      · rw [listToStr_toList, List.all_cons, List.all_cons, List.all_append,
          Bool.and_eq_true, Bool.and_eq_true, Bool.and_eq_true]
        exact ⟨rfl, rfl, all_mono_serial (all_replicate_plain _),
          all_mono_serial (all_plain_digitChars sig)⟩
      · split
        · rw [listToStr_toList, List.all_append, Bool.and_eq_true]
          exact ⟨all_mono_serial (all_plain_digitChars sig), all_serial_expChars n⟩
        · rw [listToStr_toList, List.all_append, Bool.and_eq_true, List.all_cons,
            Bool.and_eq_true, List.all_append, Bool.and_eq_true]
          exact ⟨all_mono_serial (all_sub (List.take_subset _ _) (all_plain_digitChars sig)),
            rfl, all_mono_serial (all_sub (List.drop_subset _ _) (all_plain_digitChars sig)),
            all_serial_expChars n⟩

theorem ratScaled_cast (p : ℚ) (hp : 0 < p) (hfd : p.den ∣ 10 ^ ratScale p) :
    ((p.num.toNat * (10 ^ ratScale p / p.den) : ℕ) : ℚ) = p * 10 ^ ratScale p := by
  have hden : ((p.den : ℕ) : ℚ) ≠ 0 := by
    exact_mod_cast p.den_nz
  have hnum : (0:ℤ) ≤ p.num := le_of_lt (Rat.num_pos.mpr hp)
  rw [Nat.cast_mul, Nat.cast_div hfd hden]
  have h1 : ((p.num.toNat : ℕ) : ℚ) = ((p.num : ℤ) : ℚ) := by
    exact_mod_cast congrArg (fun z : ℤ => (z : ℚ)) (Int.toNat_of_nonneg hnum)
  rw [h1]
  push_cast
  calc ((p.num : ℤ) : ℚ) * ((10:ℚ) ^ ratScale p / ((p.den : ℕ) : ℚ))
      = ((p.num : ℤ) : ℚ) / ((p.den : ℕ) : ℚ) * (10:ℚ) ^ ratScale p := by ring
    _ = p * 10 ^ ratScale p := by rw [Rat.num_div_den p]

theorem ratExp10_bounds (p : ℚ) (hp : 0 < p) (hfd : p.den ∣ 10 ^ ratScale p)
    (hlo : 1 / 1000000 ≤ p) (hhi : p < 10 ^ 21) :
    -6 < ratExp10 p ∧ ratExp10 p ≤ 21 := by
  have hcast : ((p.num.toNat * (10 ^ ratScale p / p.den) : ℕ) : ℚ) = p * 10 ^ ratScale p :=
    ratScaled_cast p hp hfd
  set m := ratScale p with hm
  set N := p.num.toNat * (10 ^ m / p.den) with hN
  have hNpos : 0 < N := by
    by_contra hcon
    have hz : N = 0 := by omega
    rw [hz] at hcast
    have hgt : (0:ℚ) < p * 10 ^ m := by positivity
    rw [← hcast] at hgt
    norm_num at hgt
  obtain ⟨hb1, hb2⟩ := natDigits_bounds N hNpos
  have hexp : ratExp10 p = ((natDigits N).length : ℤ) - (m : ℤ) := rfl
  set D := (natDigits N).length with hD
  have hup : N < 10 ^ (21 + m) := by
    have h1 : (N : ℚ) < 10 ^ 21 * 10 ^ m := by
      rw [hcast]
      exact mul_lt_mul_of_pos_right hhi (by positivity)
    rw [← pow_add] at h1
    exact_mod_cast h1
  have hDup : D < 22 + m := by
    have h2 : (10:ℕ) * N < 10 * 10 ^ (21 + m) := by omega
    have h3 : (10:ℕ) * 10 ^ (21 + m) = 10 ^ (22 + m) := by ring
    have h4 : (10:ℕ) ^ D < 10 ^ (22 + m) := by omega
    exact (Nat.pow_lt_pow_iff_right (by norm_num)).mp h4
  have hlo2 : (10:ℕ) ^ m ≤ N * 1000000 := by
    have h1 : (1/1000000 : ℚ) * 10 ^ m ≤ (N:ℚ) := by
      rw [hcast]
      exact mul_le_mul_of_nonneg_right hlo (by positivity)
    have h2 : ((10:ℚ)) ^ m ≤ (N:ℚ) * 1000000 := by
      calc ((10:ℚ)) ^ m = (1/1000000 : ℚ) * 10 ^ m * 1000000 := by ring
        _ ≤ (N:ℚ) * 1000000 := by
            exact mul_le_mul_of_nonneg_right h1 (by norm_num)
    exact_mod_cast h2
  have hDlo : m < D + 6 := by
    have h5 : N * 1000000 < 10 ^ D * 1000000 := by omega
    have h6 : (10:ℕ) ^ D * 1000000 = 10 ^ (D + 6) := by
      rw [pow_add]
      norm_num
    have h7 : (10:ℕ) ^ m < 10 ^ (D + 6) := by omega
    exact (Nat.pow_lt_pow_iff_right (by norm_num)).mp h7
  rw [hexp]
  omega

theorem jsNumberToStringPos_plain (p : ℚ) (hp : 0 < p) (hfd : p.den ∣ 10 ^ ratScale p)
    (hlo : 1 / 1000000 ≤ p) (hhi : p < 10 ^ 21) :
    (jsNumberToStringPos p).toList.all plainChar = true := by
  obtain ⟨h1, h2⟩ := ratExp10_bounds p hp hfd hlo hhi
  exact formatDigits_plain _ _ _ h1 h2

theorem ratScale_neg (q : ℚ) : ratScale (-q) = ratScale q := by
  unfold ratScale
  rw [Rat.neg_den]

/-- C8 (amended).  Number-to-text serialization: a finite numeric cell value
whose magnitude lies in the plain-decimal window `[1e-6, 1e21)` of the
ECMAScript `ToString` algorithm is rendered with digits, at most one decimal
point and a leading minus sign only — no exponent marker and no
locale-specific separators; and every serialized number, in or out of that
window, uses only digits, `.`, `-`, `e` and `+` (so locale separators such as
the comma never occur).  `FiniteDec` holds for every IEEE-754 double. -/
theorem plain_decimal_serialization (q : ℚ) :
    (FiniteDec q → mkRat 1 1000000 ≤ |q| → |q| < 1000000000000000000000 →
      (serializeCell (JSVal.num q)).toList.all plainChar = true) ∧
    (serializeCell (JSVal.num q)).toList.all serialChar = true := by
  constructor
  · intro hfd hlo hhi
    have hlo' : (1/1000000 : ℚ) ≤ |q| := by
      have e : (mkRat 1 1000000 : ℚ) = 1/1000000 := by
        rw [Rat.mkRat_eq_div]
        norm_num
      rw [e] at hlo
      exact hlo
    have hhi' : |q| < 10 ^ 21 := by
      have e : (1000000000000000000000 : ℚ) = 10 ^ 21 := by norm_num
      rw [e] at hhi
      exact hhi
    show (jsNumberToString q).toList.all plainChar = true
    unfold jsNumberToString
    by_cases h0 : q.num = 0
    · rw [if_pos h0]
      rfl
    · rw [if_neg h0]
      by_cases hneg : q.num < 0
      · rw [if_pos hneg]
        have hq : q < 0 := by rwa [← Rat.num_neg]
        have habs : |q| = -q := abs_of_neg hq
        have hpos : 0 < -q := neg_pos.mpr hq
        have hfd' : (-q).den ∣ 10 ^ ratScale (-q) := by
          rw [Rat.neg_den, ratScale_neg]
          exact hfd
        have hsplit : ((("-") ++ jsNumberToStringPos (-q))).toList =
            '-' :: (jsNumberToStringPos (-q)).toList := rfl
        rw [hsplit, List.all_cons, Bool.and_eq_true]
        refine ⟨rfl, jsNumberToStringPos_plain (-q) hpos hfd' ?_ ?_⟩
        · rw [← habs]
          exact hlo'
        · rw [← habs]
          exact hhi'
      · rw [if_neg hneg]
        have hq : 0 < q := Rat.num_pos.mp (by omega)
        have habs : |q| = q := abs_of_pos hq
        exact jsNumberToStringPos_plain q hq hfd (habs ▸ hlo') (habs ▸ hhi')
  · show (jsNumberToString q).toList.all serialChar = true
    unfold jsNumberToString
    by_cases h0 : q.num = 0
    · rw [if_pos h0]
      rfl
    · rw [if_neg h0]
      by_cases hneg : q.num < 0
      · rw [if_pos hneg]
        have hsplit : ((("-") ++ jsNumberToStringPos (-q))).toList =
            '-' :: (jsNumberToStringPos (-q)).toList := rfl
        rw [hsplit, List.all_cons, Bool.and_eq_true]
        exact ⟨rfl, formatDigits_serial (ratSig (-q)) (ratSig (-q)).length (ratExp10 (-q))⟩
      · rw [if_neg hneg]
        exact formatDigits_serial (ratSig q) (ratSig q).length (ratExp10 q)

theorem plain_decimal_serialization_witness :
    FiniteDec (mkRat 1 2) ∧ mkRat 1 1000000 ≤ |mkRat 1 2| ∧
    |mkRat 1 2| < 1000000000000000000000 ∧
    (serializeCell (JSVal.num (mkRat 1 2))).toList.all plainChar = true :=
  ⟨by decide, by decide, by decide,
    (plain_decimal_serialization (mkRat 1 2)).1 (by decide) (by decide) (by decide)⟩

set_option maxRecDepth 20000 in
/-- C8 (counterexample).  The claim as stated fails: the eccentricity
`"0.0000001"` is a finite number, and the row built by `rowFromCelestrak`
serializes it with ECMAScript exponential notation as `"1e-7"` — the emitted
cell is not a plain decimal string. -/
theorem numeric_serialization_cex :
    (rowFromCelestrakCells gpEx 0).map serializeCell =
      [("USSTRATCOM"), ("SAT"), (""), ("1998-067A"), ("25544"), (""), (""), (""), (""), (""),
       (""), (""), (""), (""), (""), (""), (""), (""), ("2024-01-01T00:00:00"), (""), ("1e-7"),
       ("0"), ("0"), ("0"), ("0")] ∧
    (("1e-7").toList.all plainChar) = false := by decide
